import Mathlib

/-!
Verification of the rclone catalog ingestion pipeline
(`SubjectiveRcloneDataSource`): a shallow embedding of the streaming
listing ingestor, its batch-upsert catalog store, target resolution and
progress reporting, together with proofs of the documented behavioural
properties.
-/

set_option maxHeartbeats 1000000

/-- Record persisted to the catalog store; mirrors the tuple built in
`_index_target`: `(full_path, drive_name, size, file_type, modified)`. -/
structure CatalogRecord where
  full_path : String
  drive : String
  size : Nat
  file_type : String
  modified : Option String
deriving Repr, DecidableEq

/-- Drop every trailing newline character; mirrors Python `line.rstrip("\n")`. -/
def rstripNl (s : String) : String :=
  String.mk ((s.toList.reverse.dropWhile (· == '\n')).reverse)

/-- Drop every trailing `/`; mirrors Python `s.rstrip('/')`. -/
def rstripSlash (s : String) : String :=
  String.mk ((s.toList.reverse.dropWhile (· == '/')).reverse)

/-- Drop every leading and trailing `/`; mirrors Python `s.strip('/')`. -/
def stripSlash (s : String) : String :=
  String.mk (((s.toList.dropWhile (· == '/')).reverse.dropWhile (· == '/')).reverse)

/-- Auxiliary worker for `splitTab`. -/
def splitTabGo : List Char → List Char → List String
  | [], acc => [String.mk acc.reverse]
  | c :: cs, acc =>
    if c = '\t' then String.mk acc.reverse :: splitTabGo cs [] else splitTabGo cs (c :: acc)

/-- Split a string on tab characters; mirrors Python `s.split("\t")`
(in particular `"".split("\t") == [""]`). -/
def splitTab (s : String) : List String := splitTabGo s.toList []

/-- Numeric value of a digit string; mirrors Python `int(s)` on strings
accepted by `str.isdigit()`. -/
def digitsVal (s : String) : Nat :=
  s.toList.foldl (fun a c => a * 10 + (c.toNat - 48)) 0

/-- Mirrors Python `s.isdigit()`: non-empty and all characters digits. -/
def isDigits (s : String) : Bool :=
  !s.toList.isEmpty && s.toList.all Char.isDigit

/-- Mirrors `dir_path.strip("/") if dir_path else ""` in `_index_target`. -/
def cleanDirOf (dir_path : String) : String :=
  if dir_path = "" then "" else stripSlash dir_path

/-- Scoped rclone target: `f"{drive}:{clean_dir}" if clean_dir else f"{drive}:"`. -/
def targetOf (drive dir_path : String) : String :=
  let cd := cleanDirOf dir_path
  if cd = "" then drive ++ ":" else drive ++ ":" ++ cd

/-- Full catalog path built in `_index_target`:
`prefix = f"{clean_dir.rstrip('/')}/" if clean_dir else ""` followed by
`full_path = f"{drive_name}:{prefix}{rel_path}"`. -/
def fullPathOf (drive cd rel_path : String) : String :=
  let pfx := if cd = "" then "" else rstripSlash cd ++ "/"
  drive ++ ":" ++ pfx ++ rel_path

/-- Per-line parsing of the `rclone lsf` stream in `_index_target`: split on
tabs, skip an empty/missing first field, default the type to `""`, parse the
size as a digit string defaulting to `0`, keep the optional timestamp. -/
def parseLine (drive cd : String) (line : String) : Option CatalogRecord :=
  let parts := splitTab (rstripNl line)
  match parts with
  | [] => none
  | rel_path :: _ =>
    if rel_path = "" then none
    else
      some
        { full_path := fullPathOf drive cd rel_path
          drive := drive
          size := if isDigits (parts.getD 2 "") then digitsVal (parts.getD 2 "") else 0
          file_type := parts.getD 1 ""
          modified := parts[3]? }

/-- Catalog-store upsert: SQLite `INSERT OR REPLACE` keyed on the
`UNIQUE(full_path)` constraint — the conflicting row is removed and the new
row appended. The list order models rowid order. -/
def upsert (store : List CatalogRecord) (r : CatalogRecord) : List CatalogRecord :=
  store.filter (fun x => x.full_path ≠ r.full_path) ++ [r]

/-- `_flush_batch`: `executemany` of `INSERT OR REPLACE` over the batch,
committed once. -/
def upsertBatch (store batch : List CatalogRecord) : List CatalogRecord :=
  batch.foldl upsert store

/-- Business keys present in the store. -/
def pathsOf (store : List CatalogRecord) : List String :=
  store.map (·.full_path)

/-- `full_path` is unique in the store. -/
def pathsNodup (store : List CatalogRecord) : Prop :=
  (pathsOf store).Nodup

instance (store : List CatalogRecord) : Decidable (pathsNodup store) := by
  unfold pathsNodup; infer_instance

/-- Observable state of one run: the catalog store (as a keyed view), the
append-only log of records handed to `_flush_batch`, and the progress
counters maintained through `set_processed_items` / `set_total_items`. -/
structure IndexState where
  store : List CatalogRecord
  flushedLog : List CatalogRecord
  processed : Nat
  total : Nat
  progressReports : List Nat
deriving Repr, DecidableEq

/-- Effect of `_flush_batch` on the run state. -/
def flushBatch (st : IndexState) (batch : List CatalogRecord) : IndexState :=
  { st with store := upsertBatch st.store batch,
            flushedLog := st.flushedLog ++ batch }

/-- `_emit_progress_safe`: call the emitter when present (`hasattr` check)
and swallow any exception it raises. `none` models a missing
`_emit_progress` attribute; `some (Except.error e)` an emitter that raises. -/
def emit_progress_safe (emitter : Option (Except String Unit)) : Except String Unit :=
  match emitter with
  | none => Except.ok ()
  | some (Except.ok ()) => Except.ok ()
  | some (Except.error _) => Except.ok ()

/-- `_update_progress`: record the new processed count and report it. The
emission acknowledgement `_ack` (always `ok` after `emit_progress_safe`) is
discarded: reporting never feeds back into ingestion. -/
def updateProgress (st : IndexState) (processed : Nat) (_ack : Except String Unit) :
    IndexState :=
  { st with processed := processed, progressReports := st.progressReports ++ [processed] }

/-- Batch size threshold from `_index_target`. -/
def batchLimit : Nat := 500

/-- The per-line loop of `_index_target` over the streamed `rclone lsf`
output: parse each line, skip unusable ones, append to the in-memory batch,
flush when the batch reaches `batchLimit`, then advance and report progress.
`emits` is the oracle of emission outcomes consumed by
`emit_progress_safe`. Returns the state and the pending (unflushed) batch. -/
def indexLines (drive cd : String) (emits : Nat → Option (Except String Unit)) :
    IndexState → List CatalogRecord → List String → IndexState × List CatalogRecord
  | st, batch, [] => (st, batch)
  | st, batch, line :: rest =>
    match parseLine drive cd line with
    | none => indexLines drive cd emits st batch rest
    | some r =>
      let batch1 := batch ++ [r]
      if batchLimit ≤ batch1.length then
        indexLines drive cd emits
          (updateProgress (flushBatch st batch1) (st.processed + 1)
            (emit_progress_safe (emits (st.processed + 1)))) [] rest
      else
        indexLines drive cd emits
          (updateProgress st (st.processed + 1)
            (emit_progress_safe (emits (st.processed + 1)))) batch1 rest

/-- Result of the `rclone lsf` subprocess for one target: its streamed
stdout lines, exit status, and captured stderr text. -/
structure ListingResult where
  lines : List String
  exitCode : Int
  errText : String
deriving Repr, DecidableEq

/-- `_index_target`: stream the listing, then check the exit status — a
non-zero exit raises (discarding the pending batch), otherwise any remaining
records are flushed. Returns the state and an error message when raised. -/
def indexTarget (emits : Nat → Option (Except String Unit)) (st : IndexState)
    (drive dir_path : String) (out : ListingResult) : IndexState × Option String :=
  let cd := cleanDirOf dir_path
  let r := indexLines drive cd emits st [] out.lines
  if out.exitCode ≠ 0 then
    (r.1, some ("rclone lsf failed for " ++ targetOf drive dir_path ++ ": " ++ out.errText))
  else if r.2.isEmpty then (r.1, none)
  else (flushBatch r.1 r.2, none)

/-- The per-target loop in `fetch`: targets are indexed sequentially and a
raised listing failure aborts the whole run immediately. -/
def ingestTargets (listing : String × String → ListingResult)
    (emits : Nat → Option (Except String Unit)) :
    IndexState → List (String × String) → IndexState × Option String
  | st, [] => (st, none)
  | st, t :: rest =>
    match indexTarget emits st t.1 t.2 (listing t) with
    | (st1, none) => ingestTargets listing emits st1 rest
    | (st1, some e) => (st1, some e)

/-- `_count_all_items`: sum the per-target counts, where a failed count
(`Except.error`) is caught, logged, and contributes zero. -/
def countAllItems (results : List (Except String Nat)) : Nat :=
  results.foldl (fun total r => match r with | .ok n => total + n | .error _ => total) 0

/-- `self.directories` from `__init__`: `dirs_param or [""]`. -/
def directoriesOf (dirs_param : List String) : List String :=
  if dirs_param.isEmpty then [""] else dirs_param

/-- `_resolve_targets`: select the requested drives (all registry drives
when none requested), reject any absent from the registry (reporting the
full list), and return the drive × directory cartesian product. -/
def resolveTargets (drives directories registry : List String) :
    Except (List String) (List (String × String)) :=
  let selected := if drives.isEmpty then registry else drives
  let missing := selected.filter (fun d => decide (d ∉ registry))
  if missing.isEmpty then
    Except.ok (selected.flatMap (fun drive => directories.map (fun dir => (drive, dir))))
  else Except.error missing

/-- Failure taxonomy of `fetch` relevant to target handling. -/
inductive FetchError where
  | unknownRemotes : List String → FetchError
  | noTargets : FetchError
  | listingFailed : String → FetchError
deriving Repr, DecidableEq

/-- Observable outcome of `fetch`: whether the catalog file was created or
opened, the final run state, the raised error (if any), and whether
`set_fetch_completed(True)` was reached. -/
structure FetchOutcome where
  dbTouched : Bool
  state : IndexState
  err : Option FetchError
  completed : Bool
deriving Repr, DecidableEq

/-- Run state right after `set_total_items`, `set_processed_items(0)` and
the initial progress emission. -/
def initState (total : Nat) : IndexState :=
  { store := [], flushedLog := [], processed := 0, total := total, progressReports := [0] }

/-- `fetch`: resolve targets (raising before the catalog file or its
directory is touched), check for an empty target list, then create the
store, pre-count the items, and ingest each target in order. -/
def fetchRun (drives dirs registry : List String)
    (counts : String × String → Except String Nat)
    (listing : String × String → ListingResult)
    (emits : Nat → Option (Except String Unit)) : FetchOutcome :=
  match resolveTargets drives (directoriesOf dirs) registry with
  | Except.error missing =>
    { dbTouched := false, state := initState 0,
      err := some (FetchError.unknownRemotes missing), completed := false }
  | Except.ok targets =>
    if targets.isEmpty then
      { dbTouched := false, state := initState 0,
        err := some FetchError.noTargets, completed := false }
    else
      let r := ingestTargets listing emits (initState (countAllItems (targets.map counts))) targets
      { dbTouched := true, state := r.1,
        err := r.2.map FetchError.listingFailed, completed := r.2.isNone }

/-- All records parsed from the listings of a target list, in ingestion
order. -/
def allParsed (listing : String × String → ListingResult)
    (targets : List (String × String)) : List CatalogRecord :=
  targets.flatMap (fun t => (listing t).lines.filterMap (parseLine t.1 (cleanDirOf t.2)))

example : splitTab "" = [""] := by decide
example : splitTab "a\tb\t" = ["a", "b", ""] := by decide
example : rstripNl "abc\n" = "abc" := by decide
example : cleanDirOf "/a/b/" = "a/b" := by decide
example : parseLine "r" "" "c.txt\tfile\t12\t2024" =
    some { full_path := "r:c.txt", drive := "r", size := 12, file_type := "file",
           modified := some "2024" } := by decide
example : parseLine "r" "a/b" "c.txt" =
    some { full_path := "r:a/b/c.txt", drive := "r", size := 0, file_type := "",
           modified := none } := by decide
example : parseLine "r" "" "\n" = none := by decide

/-! ### Basic projection and store lemmas -/

@[simp] theorem flushBatch_store (st : IndexState) (b : List CatalogRecord) :
    (flushBatch st b).store = upsertBatch st.store b := rfl

@[simp] theorem flushBatch_flushedLog (st : IndexState) (b : List CatalogRecord) :
    (flushBatch st b).flushedLog = st.flushedLog ++ b := rfl

@[simp] theorem flushBatch_processed (st : IndexState) (b : List CatalogRecord) :
    (flushBatch st b).processed = st.processed := rfl

@[simp] theorem flushBatch_total (st : IndexState) (b : List CatalogRecord) :
    (flushBatch st b).total = st.total := rfl

@[simp] theorem flushBatch_progressReports (st : IndexState) (b : List CatalogRecord) :
    (flushBatch st b).progressReports = st.progressReports := rfl

@[simp] theorem updateProgress_store (st : IndexState) (p : Nat) (a : Except String Unit) :
    (updateProgress st p a).store = st.store := rfl

@[simp] theorem updateProgress_flushedLog (st : IndexState) (p : Nat) (a : Except String Unit) :
    (updateProgress st p a).flushedLog = st.flushedLog := rfl

@[simp] theorem updateProgress_processed (st : IndexState) (p : Nat) (a : Except String Unit) :
    (updateProgress st p a).processed = p := rfl

@[simp] theorem updateProgress_total (st : IndexState) (p : Nat) (a : Except String Unit) :
    (updateProgress st p a).total = st.total := rfl

@[simp] theorem updateProgress_progressReports (st : IndexState) (p : Nat)
    (a : Except String Unit) :
    (updateProgress st p a).progressReports = st.progressReports ++ [p] := rfl

theorem upsertBatch_append (s x y : List CatalogRecord) :
    upsertBatch s (x ++ y) = upsertBatch (upsertBatch s x) y := by
  simp [upsertBatch]

/-! ### Invariants of the per-line ingestion loop -/

/-- Flushed records and the pending batch together enumerate exactly the
parsed records, the flushed log only grows, and the store is the batch
upsert of the flushed part. -/
theorem indexLines_flush_inv (d cd : String) (emits : Nat → Option (Except String Unit))
    (ls : List String) :
    ∀ (st : IndexState) (b : List CatalogRecord),
    ∃ f : List CatalogRecord,
      (indexLines d cd emits st b ls).1.flushedLog = st.flushedLog ++ f ∧
      (indexLines d cd emits st b ls).1.store = upsertBatch st.store f ∧
      f ++ (indexLines d cd emits st b ls).2 = b ++ ls.filterMap (parseLine d cd) := by
  induction ls with
  | nil =>
    intro st b
    exact ⟨[], by simp [indexLines], by simp [indexLines, upsertBatch], by simp [indexLines]⟩
  | cons line rest ih =>
    intro st b
    cases hp : parseLine d cd line with
    | none =>
      obtain ⟨f, h1, h2, h3⟩ := ih st b
      refine ⟨f, ?_, ?_, ?_⟩ <;> simp [indexLines, hp, h1, h2, h3]
    | some r =>
      by_cases hb : batchLimit ≤ (b ++ [r]).length
      · obtain ⟨f, h1, h2, h3⟩ := ih
          (updateProgress (flushBatch st (b ++ [r])) (st.processed + 1)
            (emit_progress_safe (emits (st.processed + 1)))) []
        refine ⟨(b ++ [r]) ++ f, ?_, ?_, ?_⟩
        · simp only [indexLines, hp, if_pos hb]
          simp only [h1, updateProgress_flushedLog, flushBatch_flushedLog, List.append_assoc]
        · simp only [indexLines, hp, if_pos hb]
          simp only [h2, updateProgress_store, flushBatch_store, upsertBatch_append]
        · simp only [indexLines, hp, if_pos hb]
          simp [h3, List.filterMap_cons, hp]
      · obtain ⟨f, h1, h2, h3⟩ := ih
          (updateProgress st (st.processed + 1)
            (emit_progress_safe (emits (st.processed + 1)))) (b ++ [r])
        refine ⟨f, ?_, ?_, ?_⟩
        · simp only [indexLines, hp, if_neg hb]
          simp only [h1, updateProgress_flushedLog]
        · simp only [indexLines, hp, if_neg hb]
          simp only [h2, updateProgress_store]
        · simp only [indexLines, hp, if_neg hb]
          simp [h3, List.filterMap_cons, hp]

/-- The processed counter advances by one per parsed record, the total is
never touched by ingestion, and the reported progress values are the
consecutive integers following the starting count. -/
theorem indexLines_progress_inv (d cd : String) (emits : Nat → Option (Except String Unit))
    (ls : List String) :
    ∀ (st : IndexState) (b : List CatalogRecord),
      (indexLines d cd emits st b ls).1.processed
          = st.processed + (ls.filterMap (parseLine d cd)).length ∧
      (indexLines d cd emits st b ls).1.total = st.total ∧
      (indexLines d cd emits st b ls).1.progressReports
          = st.progressReports
              ++ List.range' (st.processed + 1) (ls.filterMap (parseLine d cd)).length := by
  induction ls with
  | nil => intro st b; refine ⟨?_, ?_, ?_⟩ <;> simp [indexLines]
  | cons line rest ih =>
    intro st b
    cases hp : parseLine d cd line with
    | none =>
      obtain ⟨h1, h2, h3⟩ := ih st b
      refine ⟨?_, ?_, ?_⟩ <;> simp [indexLines, hp, h1, h2, h3]
    | some r =>
      by_cases hb : batchLimit ≤ (b ++ [r]).length
      · obtain ⟨h1, h2, h3⟩ := ih
          (updateProgress (flushBatch st (b ++ [r])) (st.processed + 1)
            (emit_progress_safe (emits (st.processed + 1)))) []
        refine ⟨?_, ?_, ?_⟩
        · simp only [indexLines, hp, if_pos hb]
          simp [h1, List.filterMap_cons, hp, Nat.add_comm, Nat.add_assoc, Nat.add_left_comm]
        · simp only [indexLines, hp, if_pos hb]
          simp [h2]
        · simp only [indexLines, hp, if_pos hb]
          simp [h3, List.filterMap_cons, hp, List.range'_succ, List.append_assoc]
      · obtain ⟨h1, h2, h3⟩ := ih
          (updateProgress st (st.processed + 1)
            (emit_progress_safe (emits (st.processed + 1)))) (b ++ [r])
        refine ⟨?_, ?_, ?_⟩
        · simp only [indexLines, hp, if_neg hb]
          simp [h1, List.filterMap_cons, hp, Nat.add_comm, Nat.add_assoc, Nat.add_left_comm]
        · simp only [indexLines, hp, if_neg hb]
          simp [h2]
        · simp only [indexLines, hp, if_neg hb]
          simp [h3, List.filterMap_cons, hp, List.range'_succ, List.append_assoc]

/-- Size of the pending batch after consuming the stream: the parsed-record
count modulo the batch threshold. -/
theorem indexLines_batch_len (d cd : String) (emits : Nat → Option (Except String Unit))
    (ls : List String) :
    ∀ (st : IndexState) (b : List CatalogRecord), b.length < batchLimit →
      ((indexLines d cd emits st b ls).2).length
        = (b.length + (ls.filterMap (parseLine d cd)).length) % batchLimit := by
  induction ls with
  | nil =>
    intro st b hlt
    simp only [indexLines, List.filterMap_nil, List.length_nil, Nat.add_zero]
    exact (Nat.mod_eq_of_lt hlt).symm
  | cons line rest ih =>
    intro st b hlt
    cases hp : parseLine d cd line with
    | none =>
      have := ih st b hlt
      simp only [indexLines, hp, List.filterMap_cons]
      exact this
    | some r =>
      by_cases hb : batchLimit ≤ (b ++ [r]).length
      · have hfull : b.length + 1 = batchLimit := by
          simp only [List.length_append, List.length_cons, List.length_nil] at hb
          omega
        have := ih
          (updateProgress (flushBatch st (b ++ [r])) (st.processed + 1)
            (emit_progress_safe (emits (st.processed + 1)))) []
          (by simp [batchLimit])
        simp only [indexLines, hp, if_pos hb, List.filterMap_cons]
        simp only [List.length_nil, Nat.zero_add] at this
        rw [this]
        have h2 : b.length + ((rest.filterMap (parseLine d cd)).length + 1)
            = batchLimit + (rest.filterMap (parseLine d cd)).length := by omega
        simp [List.length_cons, h2, Nat.add_mod_left]
      · have hlt1 : (b ++ [r]).length < batchLimit := Nat.lt_of_not_le hb
        have := ih
          (updateProgress st (st.processed + 1)
            (emit_progress_safe (emits (st.processed + 1)))) (b ++ [r]) hlt1
        simp only [indexLines, hp, if_neg hb, List.filterMap_cons]
        rw [this]
        simp only [List.length_append, List.length_cons, List.length_nil, List.length_cons]
        congr 1
        omega

/-- Ingestion output does not depend on the outcomes of progress emission. -/
theorem indexLines_emits_irrel (d cd : String) (ls : List String) :
    ∀ (emits emits' : Nat → Option (Except String Unit)) (st : IndexState)
      (b : List CatalogRecord),
      indexLines d cd emits st b ls = indexLines d cd emits' st b ls := by
  induction ls with
  | nil => intro _ _ _ _; rfl
  | cons line rest ih =>
    intro em em' st b
    cases hp : parseLine d cd line with
    | none =>
      simp only [indexLines, hp]
      exact ih em em' st b
    | some r =>
      by_cases hb : batchLimit ≤ (b ++ [r]).length
      · simp only [indexLines, hp, if_pos hb]
        exact ih em em' _ _
      · simp only [indexLines, hp, if_neg hb]
        exact ih em em' _ _

/-! ### Behaviour of `_index_target` -/

/-- A zero exit status yields no error, flushes everything (partial batch
included), and leaves the counters as dictated by the parsed records. -/
theorem indexTarget_ok (emits : Nat → Option (Except String Unit)) (st : IndexState)
    (drive dir_path : String) (out : ListingResult) (hexit : out.exitCode = 0) :
    (indexTarget emits st drive dir_path out).2 = none ∧
    (indexTarget emits st drive dir_path out).1.flushedLog
      = st.flushedLog ++ out.lines.filterMap (parseLine drive (cleanDirOf dir_path)) ∧
    (indexTarget emits st drive dir_path out).1.store
      = upsertBatch st.store (out.lines.filterMap (parseLine drive (cleanDirOf dir_path))) ∧
    (indexTarget emits st drive dir_path out).1.processed
      = st.processed + (out.lines.filterMap (parseLine drive (cleanDirOf dir_path))).length ∧
    (indexTarget emits st drive dir_path out).1.total = st.total ∧
    (indexTarget emits st drive dir_path out).1.progressReports
      = st.progressReports
          ++ List.range' (st.processed + 1)
              (out.lines.filterMap (parseLine drive (cleanDirOf dir_path))).length := by
  obtain ⟨f, h1, h2, h3⟩ :=
    indexLines_flush_inv drive (cleanDirOf dir_path) emits out.lines st []
  obtain ⟨p1, p2, p3⟩ :=
    indexLines_progress_inv drive (cleanDirOf dir_path) emits out.lines st []
  simp only [List.nil_append] at h3
  by_cases hpend :
      (indexLines drive (cleanDirOf dir_path) emits st [] out.lines).2.isEmpty
  · have hpend' : (indexLines drive (cleanDirOf dir_path) emits st [] out.lines).2 = [] :=
      List.isEmpty_iff.mp hpend
    have hf : f = out.lines.filterMap (parseLine drive (cleanDirOf dir_path)) := by
      rw [hpend', List.append_nil] at h3; exact h3
    unfold indexTarget
    rw [hexit]
    simp only [ne_eq, not_true_eq_false, if_false, reduceIte, hpend]
    simp [hpend, h1, h2, hf, p1, p2, p3]
  · unfold indexTarget
    rw [hexit]
    simp only [ne_eq, not_true_eq_false, reduceIte, hpend, Bool.false_eq_true, if_false]
    refine ⟨trivial, ?_, ?_, ?_, ?_, ?_⟩
    · simp only [flushBatch_flushedLog, h1, List.append_assoc, h3]
    · simp only [flushBatch_store, h2, ← upsertBatch_append, h3]
    · simp [p1]
    · simp [p2]
    · simp [p3]

/-- A non-zero exit status raises `ListingFailed` with the scoped target and
stderr text, before the pending batch is flushed. -/
theorem indexTarget_fail (emits : Nat → Option (Except String Unit)) (st : IndexState)
    (drive dir_path : String) (out : ListingResult) (hexit : out.exitCode ≠ 0) :
    indexTarget emits st drive dir_path out
      = ((indexLines drive (cleanDirOf dir_path) emits st [] out.lines).1,
         some ("rclone lsf failed for " ++ targetOf drive dir_path ++ ": " ++ out.errText)) := by
  unfold indexTarget
  simp [hexit]

/-- The per-target step raises exactly when the subprocess exit status is
non-zero. -/
theorem indexTarget_err_iff (emits : Nat → Option (Except String Unit)) (st : IndexState)
    (drive dir_path : String) (out : ListingResult) :
    (indexTarget emits st drive dir_path out).2 = none ↔ out.exitCode = 0 := by
  by_cases hexit : out.exitCode = 0
  · simp [hexit, (indexTarget_ok emits st drive dir_path out hexit).1]
  · rw [indexTarget_fail emits st drive dir_path out hexit]
    simp [hexit]

/-! ### Behaviour of the per-target loop in `fetch` -/

/-- A run whose targets all list successfully accumulates exactly the parsed
records of every target, counts them all, and reports consecutive progress
values. -/
theorem ingestTargets_ok (listing : String × String → ListingResult)
    (emits : Nat → Option (Except String Unit)) (ts : List (String × String)) :
    ∀ st : IndexState, (ingestTargets listing emits st ts).2 = none →
      (ingestTargets listing emits st ts).1.flushedLog
        = st.flushedLog ++ allParsed listing ts ∧
      (ingestTargets listing emits st ts).1.processed
        = st.processed + (allParsed listing ts).length ∧
      (ingestTargets listing emits st ts).1.total = st.total ∧
      (ingestTargets listing emits st ts).1.progressReports
        = st.progressReports ++ List.range' (st.processed + 1) (allParsed listing ts).length := by
  induction ts with
  | nil =>
    intro st _
    simp [ingestTargets, allParsed]
  | cons t rest ih =>
    intro st h
    rcases hIT : indexTarget emits st t.1 t.2 (listing t) with ⟨st1, e⟩
    cases e with
    | some msg =>
      rw [show ingestTargets listing emits st (t :: rest)
            = (st1, some msg) by simp [ingestTargets, hIT]] at h
      exact absurd h (by simp)
    | none =>
      have hexit : (listing t).exitCode = 0 := by
        have := indexTarget_err_iff emits st t.1 t.2 (listing t)
        rw [hIT] at this
        exact this.mp rfl
      obtain ⟨_, hflush, _, hproc, htot, hrep⟩ :=
        indexTarget_ok emits st t.1 t.2 (listing t) hexit
      rw [hIT] at hflush hproc htot hrep
      have hstep : ingestTargets listing emits st (t :: rest)
          = ingestTargets listing emits st1 rest := by
        simp [ingestTargets, hIT]
      rw [hstep] at h ⊢
      obtain ⟨g1, g2, g3, g4⟩ := ih st1 h
      have hlen : (allParsed listing (t :: rest)).length
          = ((listing t).lines.filterMap (parseLine t.1 (cleanDirOf t.2))).length
            + (allParsed listing rest).length := by
        simp [allParsed]
      refine ⟨?_, ?_, ?_, ?_⟩
      · rw [g1, hflush, List.append_assoc]
        simp [allParsed]
      · rw [g2, hproc, hlen]
        omega
      · rw [g3, htot]
      · rw [g4, hrep, hproc, List.append_assoc, hlen]
        have harg : st.processed
            + ((listing t).lines.filterMap (parseLine t.1 (cleanDirOf t.2))).length + 1
            = st.processed + 1
              + ((listing t).lines.filterMap (parseLine t.1 (cleanDirOf t.2))).length := by
          omega
        rw [harg, List.range'_append_1, Nat.add_comm ((allParsed listing rest).length)]

/-- A target whose listing raises aborts the loop at once: the result is the
state at the failure, and the remaining targets are never consulted. -/
theorem ingestTargets_fail (listing : String × String → ListingResult)
    (emits : Nat → Option (Except String Unit)) (st : IndexState)
    (t : String × String) (rest : List (String × String)) (msg : String)
    (h : (indexTarget emits st t.1 t.2 (listing t)).2 = some msg) :
    ingestTargets listing emits st (t :: rest)
      = ((indexTarget emits st t.1 t.2 (listing t)).1, some msg) := by
  rcases hIT : indexTarget emits st t.1 t.2 (listing t) with ⟨st1, e⟩
  rw [hIT] at h
  simp only at h
  subst h
  simp [ingestTargets, hIT]

/-! ### Catalog-store upsert theory -/

/-- Every row of an upserted store comes from the old store or the batch. -/
theorem mem_upsert {s : List CatalogRecord} {r x : CatalogRecord}
    (h : x ∈ upsert s r) : x ∈ s ∨ x = r := by
  unfold upsert at h
  rcases List.mem_append.mp h with h1 | h1
  · exact Or.inl (List.mem_of_mem_filter h1)
  · exact Or.inr (List.mem_singleton.mp h1)

/-- Batch version of `mem_upsert`. -/
theorem mem_upsertBatch {b : List CatalogRecord} :
    ∀ {s : List CatalogRecord} {x : CatalogRecord},
      x ∈ upsertBatch s b → x ∈ s ∨ x ∈ b := by
  induction b with
  | nil => intro s x h; exact Or.inl h
  | cons r b' ih =>
    intro s x h
    rcases ih (s := upsert s r) h with h1 | h1
    · rcases mem_upsert h1 with h2 | h2
      · exact Or.inl h2
      · exact Or.inr (by simp [h2])
    · exact Or.inr (List.mem_cons_of_mem _ h1)

/-- Normal form of a batch upsert: rows of the old store whose key is not
overwritten by the batch, followed by the batch's own net effect. -/
theorem upsertBatch_normal (b : List CatalogRecord) :
    ∀ s : List CatalogRecord,
      upsertBatch s b
        = s.filter (fun x => decide (x.full_path ∉ pathsOf b)) ++ upsertBatch [] b := by
  induction b with
  | nil =>
    intro s
    simp [upsertBatch, pathsOf]
  | cons r b' ih =>
    intro s
    have hstep : upsertBatch s (r :: b') = upsertBatch (upsert s r) b' := rfl
    rw [hstep, ih (upsert s r)]
    have hnil : upsertBatch [] (r :: b') = upsertBatch [r] b' := by
      simp [upsertBatch, upsert]
    rw [hnil, ih [r]]
    unfold upsert
    rw [List.filter_append, List.filter_filter, List.append_assoc]
    congr 1
    apply List.filter_congr
    intro x _
    simp only [pathsOf, List.map_cons, List.mem_cons, decide_not]
    by_cases h1 : x.full_path = r.full_path
    · simp [h1]
    · simp [h1]

/-- Replaying an identical batch leaves the store unchanged: the upsert is
idempotent on repeated identical input. -/
theorem upsertBatch_idem (s b : List CatalogRecord) :
    upsertBatch (upsertBatch s b) b = upsertBatch s b := by
  have hmem : ∀ x ∈ upsertBatch ([] : List CatalogRecord) b, x.full_path ∈ pathsOf b := by
    intro x hx
    rcases mem_upsertBatch hx with h1 | h1
    · cases h1
    · exact List.mem_map_of_mem _ h1
  have hnf : (upsertBatch ([] : List CatalogRecord) b).filter
      (fun x => decide (x.full_path ∉ pathsOf b)) = [] := by
    rw [List.filter_eq_nil_iff]
    intro x hx
    simp [hmem x hx]
  calc upsertBatch (upsertBatch s b) b
      = (upsertBatch s b).filter (fun x => decide (x.full_path ∉ pathsOf b))
          ++ upsertBatch [] b := upsertBatch_normal b _
    _ = (s.filter (fun x => decide (x.full_path ∉ pathsOf b))
          ++ upsertBatch [] b).filter (fun x => decide (x.full_path ∉ pathsOf b))
          ++ upsertBatch [] b := by rw [← upsertBatch_normal b s]
    _ = s.filter (fun x => decide (x.full_path ∉ pathsOf b))
          ++ upsertBatch [] b := by
        rw [List.filter_append, List.filter_filter, hnf, List.append_nil]
        congr 1
        apply List.filter_congr
        intro x _
        simp
    _ = upsertBatch s b := (upsertBatch_normal b s).symm

/-- A single upsert preserves uniqueness of `full_path`. -/
theorem upsert_pathsNodup {s : List CatalogRecord} (r : CatalogRecord)
    (h : pathsNodup s) : pathsNodup (upsert s r) := by
  unfold pathsNodup pathsOf upsert at *
  rw [List.map_append, List.nodup_append]
  refine ⟨?_, by simp, ?_⟩
  · exact List.Nodup.sublist ((List.filter_sublist s).map (fun x => x.full_path)) h
  · intro p hp
    rcases List.mem_map.mp hp with ⟨x, hx, hpx⟩
    have hne : x.full_path ≠ r.full_path := by
      have := List.of_mem_filter hx
      simpa using this
    simp [← hpx, hne]

/-- A batch upsert preserves uniqueness of `full_path`. -/
theorem upsertBatch_pathsNodup (b : List CatalogRecord) :
    ∀ {s : List CatalogRecord}, pathsNodup s → pathsNodup (upsertBatch s b) := by
  induction b with
  | nil => intro s h; exact h
  | cons r b' ih => intro s h; exact ih (upsert_pathsNodup r h)

/-- Re-ingesting a key that is already present does not grow the store. -/
theorem upsert_length_of_mem :
    ∀ (s : List CatalogRecord) (r : CatalogRecord), pathsNodup s →
      r.full_path ∈ pathsOf s → (upsert s r).length = s.length := by
  intro s r
  induction s with
  | nil => intro _ hmem; simp [pathsOf] at hmem
  | cons x s' ih =>
    intro hnd hmem
    have hnd' : pathsNodup s' := by
      unfold pathsNodup pathsOf at hnd ⊢
      exact (List.nodup_cons.mp hnd).2
    by_cases hx : x.full_path = r.full_path
    · have hnotin : ∀ y ∈ s', y.full_path ≠ r.full_path := by
        intro y hy hcon
        have hhead := (List.nodup_cons.mp hnd).1
        have hxy : x.full_path = y.full_path := by rw [hx, hcon]
        exact hhead (by simpa [hxy] using List.mem_map_of_mem (fun z => z.full_path) hy)
      unfold upsert
      rw [List.filter_cons_of_neg (by simp [hx]),
          List.filter_eq_self.mpr (by intro y hy; simpa using hnotin y hy)]
      simp
    · have hmem' : r.full_path ∈ pathsOf s' := by
        unfold pathsOf at hmem
        rcases List.mem_cons.mp hmem with h1 | h1
        · exact absurd h1.symm hx
        · exact h1
      have hlen' := ih hnd' hmem'
      unfold upsert at hlen' ⊢
      rw [List.filter_cons_of_pos (by simp [hx])]
      simp only [List.cons_append, List.length_cons]
      rw [show (List.filter (fun y => decide (y.full_path ≠ r.full_path)) s' ++ [r]).length
            = s'.length from hlen']

/-- Last-write-wins: after an upsert, lookup by the upserted key returns the
new row. -/
theorem find?_upsert (s : List CatalogRecord) (r : CatalogRecord) :
    (upsert s r).find? (fun x => x.full_path == r.full_path) = some r := by
  unfold upsert
  rw [List.find?_append]
  have hnone : (s.filter (fun x => x.full_path ≠ r.full_path)).find?
      (fun x => x.full_path == r.full_path) = none := by
    rw [List.find?_eq_none]
    intro x hx
    have := List.of_mem_filter hx
    simpa using this
  rw [hnone]
  simp

/-! ### Target resolution helpers -/

/-- The directory list fed to the resolver always has at least the root
entry. -/
theorem directoriesOf_ne_nil (dirs : List String) : directoriesOf dirs ≠ [] := by
  cases dirs <;> simp [directoriesOf]

/-- Shape of a successful resolution: no requested remote was missing and
the result is the drive × directory product. -/
theorem resolveTargets_ok (drives directories registry : List String)
    (ts : List (String × String))
    (h : resolveTargets drives directories registry = Except.ok ts) :
    (if drives.isEmpty then registry else drives).filter
        (fun d => decide (d ∉ registry)) = [] ∧
    ts = (if drives.isEmpty then registry else drives).flatMap
           (fun drive => directories.map (fun dir => (drive, dir))) := by
  simp only [resolveTargets] at h
  revert h
  generalize (if drives.isEmpty = true then registry else drives) = selected
  intro h
  split at h
  · next hm => exact ⟨List.isEmpty_iff.mp hm, (Except.ok.inj h).symm⟩
  · next hm => cases h

/-- Shape of a failed resolution when remotes were explicitly requested and
some are missing: the error carries exactly the missing ones, in request
order. -/
theorem resolveTargets_error (drives directories registry : List String)
    (hne : drives ≠ [])
    (hmiss : drives.filter (fun d => decide (d ∉ registry)) ≠ []) :
    resolveTargets drives directories registry
      = Except.error (drives.filter (fun d => decide (d ∉ registry))) := by
  unfold resolveTargets
  have hd : drives.isEmpty = false := by
    cases drives with
    | nil => exact absurd rfl hne
    | cons a l => rfl
  rw [hd]
  simp only [Bool.false_eq_true, if_false]
  rw [if_neg (by simpa [List.isEmpty_iff] using hmiss)]

/-- Unfolding of `fetch` once targets resolved successfully and non-empty:
the store is touched and the run is the target loop. -/
theorem fetchRun_ok_unfold (drives dirs registry : List String)
    (counts : String × String → Except String Nat)
    (listing : String × String → ListingResult)
    (emits : Nat → Option (Except String Unit)) (targets : List (String × String))
    (hres : resolveTargets drives (directoriesOf dirs) registry = Except.ok targets)
    (hne : targets ≠ []) :
    fetchRun drives dirs registry counts listing emits
      = { dbTouched := true,
          state := (ingestTargets listing emits
            (initState (countAllItems (targets.map counts))) targets).1,
          err := (ingestTargets listing emits
            (initState (countAllItems (targets.map counts))) targets).2.map
              FetchError.listingFailed,
          completed := (ingestTargets listing emits
            (initState (countAllItems (targets.map counts))) targets).2.isNone } := by
  unfold fetchRun
  rw [hres]
  simp only [List.isEmpty_iff, hne, if_false]

/-- Counting valid parsed records: a stream whose every line parses yields
one record per line. -/
theorem length_filterMap_of_isSome {α β : Type} (f : α → Option β) :
    ∀ ls : List α, (∀ l ∈ ls, (f l).isSome) → (ls.filterMap f).length = ls.length := by
  intro ls
  induction ls with
  | nil => intro _; rfl
  | cons a l ih =>
    intro h
    rcases hfa : f a with _ | b
    · exact absurd (h a (by simp)) (by simp [hfa])
    · simp [List.filterMap_cons, hfa, ih (fun x hx => h x (by simp [hx]))]

/-- Progress reports of a full run form a non-decreasing chain. -/
theorem chainLe_zero_range' (n : Nat) :
    List.Chain' (· ≤ ·) (0 :: List.range' 1 n) := by
  have h : ∀ (s m : Nat), List.Chain (· ≤ ·) s (List.range' (s + 1) m) := by
    intro s m
    induction m generalizing s with
    | zero => simp
    | succ k ih =>
      rw [List.range'_succ]
      exact List.Chain.cons (Nat.le_succ s) (ih (s + 1))
  exact h 0 n

/-! ### Claims -/

/-- C1: for every listing stream of N well-formed records consumed by a
successful run of the listing ingestor on one target (subprocess exit
status zero), exactly N records are persisted to the catalog store,
regardless of whether N is a multiple of the 500-record batch threshold;
after stream exhaustion the remaining pending batch is flushed. -/
theorem indexTarget_persists_all_records (emits : Nat → Option (Except String Unit))
    (st : IndexState) (drive dir_path : String) (out : ListingResult)
    (hexit : out.exitCode = 0)
    (hwf : ∀ l ∈ out.lines, (parseLine drive (cleanDirOf dir_path) l).isSome) :
    (indexTarget emits st drive dir_path out).2 = none ∧
    (indexTarget emits st drive dir_path out).1.flushedLog.length
      = st.flushedLog.length + out.lines.length := by
  obtain ⟨h0, h1, -, -, -, -⟩ := indexTarget_ok emits st drive dir_path out hexit
  refine ⟨h0, ?_⟩
  rw [h1, List.length_append]
  congr 1
  exact length_filterMap_of_isSome (parseLine drive (cleanDirOf dir_path)) out.lines hwf

set_option maxRecDepth 100000 in
/-- Witness for C1 at a 501-line stream, one past the batch threshold. -/
theorem indexTarget_persists_all_records_witness :
    (indexTarget (fun _ => none) (initState 0) "r" ""
        { lines := List.replicate 501 "a\tfile\t3\t2024", exitCode := 0, errText := "" }).2
      = none ∧
    ((indexTarget (fun _ => none) (initState 0) "r" ""
        { lines := List.replicate 501 "a\tfile\t3\t2024", exitCode := 0, errText := "" }).1).flushedLog.length
      = (initState 0).flushedLog.length + (List.replicate 501 "a\tfile\t3\t2024").length :=
  indexTarget_persists_all_records (fun _ => none) (initState 0) "r" ""
    { lines := List.replicate 501 "a\tfile\t3\t2024", exitCode := 0, errText := "" } rfl
    (fun l hl => by rw [List.eq_of_mem_replicate hl]; decide)

/-- C2 counterexample: a line that carries only the first field (no tabs,
hence missing every field after the first) is not skipped — it is ingested
as a record with default type and size, so it contributes one usable record
to the catalog, not zero as the claim states. -/
theorem single_field_line_yields_record :
    parseLine "r" "" "orphan\n"
      = some { full_path := "r:orphan", drive := "r", size := 0, file_type := "",
               modified := none } ∧
    (indexTarget (fun _ => none) (initState 0) "r" ""
        { lines := ["good\tfile\t3\t2024\n", "orphan\n", "next\tfile\t4\t2024\n"],
          exitCode := 0, errText := "" }).1.flushedLog.length = 3 := by
  exact ⟨by decide, by decide⟩

/-- C2 (amended): a blank line, or any line whose first field is empty, is
skipped without crashing ingestion and contributes zero records; a line
missing all fields after the first but with a non-empty first field is
ingested as a record with empty type, size 0 and no timestamp; in every
case all other parseable lines of the stream are still ingested. -/
theorem malformed_line_tolerance (emits : Nat → Option (Except String Unit))
    (st : IndexState) (drive dir_path : String) (out : ListingResult)
    (hexit : out.exitCode = 0) :
    parseLine drive (cleanDirOf dir_path) "" = none ∧
    parseLine drive (cleanDirOf dir_path) "\n" = none ∧
    (∀ l : String, splitTab (rstripNl l) = [rstripNl l] → rstripNl l ≠ "" →
       parseLine drive (cleanDirOf dir_path) l
         = some { full_path := fullPathOf drive (cleanDirOf dir_path) (rstripNl l),
                  drive := drive, size := 0, file_type := "", modified := none }) ∧
    (indexTarget emits st drive dir_path out).2 = none ∧
    (indexTarget emits st drive dir_path out).1.flushedLog
      = st.flushedLog ++ out.lines.filterMap (parseLine drive (cleanDirOf dir_path)) := by
  obtain ⟨h0, h1, -, -, -, -⟩ := indexTarget_ok emits st drive dir_path out hexit
  refine ⟨?_, ?_, ?_, h0, h1⟩
  · have hs : splitTab (rstripNl "") = [""] := by decide
    simp [parseLine, hs]
  · have hs : splitTab (rstripNl "\n") = [""] := by decide
    simp [parseLine, hs]
  · intro l hsplit hne
    simp only [parseLine, hsplit]
    rw [if_neg hne]
    simp [show isDigits "" = false from by decide]

/-- Witness for the amended C2 at a stream containing a good line, a
first-field-only line, and another good line. -/
theorem malformed_line_tolerance_witness :
    parseLine "r" (cleanDirOf "") "" = none ∧
    parseLine "r" (cleanDirOf "") "\n" = none ∧
    parseLine "r" (cleanDirOf "") "orphan"
      = some { full_path := fullPathOf "r" (cleanDirOf "") (rstripNl "orphan"),
               drive := "r", size := 0, file_type := "", modified := none } ∧
    (indexTarget (fun _ => none) (initState 0) "r" ""
        { lines := ["good\tfile\t3\t2024\n", "\n", "next\tfile\t4\t2024\n"],
          exitCode := 0, errText := "" }).2 = none ∧
    (indexTarget (fun _ => none) (initState 0) "r" ""
        { lines := ["good\tfile\t3\t2024\n", "\n", "next\tfile\t4\t2024\n"],
          exitCode := 0, errText := "" }).1.flushedLog
      = (initState 0).flushedLog
        ++ ["good\tfile\t3\t2024\n", "\n", "next\tfile\t4\t2024\n"].filterMap
             (parseLine "r" (cleanDirOf "")) := by
  have h := malformed_line_tolerance (fun _ => none) (initState 0) "r" ""
    { lines := ["good\tfile\t3\t2024\n", "\n", "next\tfile\t4\t2024\n"],
      exitCode := 0, errText := "" } rfl
  exact ⟨h.1, h.2.1, h.2.2.1 "orphan" (by decide) (by decide), h.2.2.2.1, h.2.2.2.2⟩

/-- C3: running ingestion twice against an unchanged remote listing yields
the same catalog contents as running it once; `full_path` stays unique in
the store; and upserting a key already present replaces the existing row
(last write wins) instead of duplicating it. -/
theorem rerun_upsert_idempotent (emits : Nat → Option (Except String Unit))
    (st : IndexState) (drive dir_path : String) (out : ListingResult)
    (hexit : out.exitCode = 0) (hnd : pathsNodup st.store) :
    (indexTarget emits (indexTarget emits st drive dir_path out).1 drive dir_path out).1.store
      = (indexTarget emits st drive dir_path out).1.store ∧
    pathsNodup (indexTarget emits st drive dir_path out).1.store ∧
    (∀ (s : List CatalogRecord) (rec : CatalogRecord), pathsNodup s →
       rec.full_path ∈ pathsOf s →
       (upsert s rec).length = s.length ∧
       (upsert s rec).find? (fun x => x.full_path == rec.full_path) = some rec) := by
  obtain ⟨-, -, hstore, -, -, -⟩ := indexTarget_ok emits st drive dir_path out hexit
  obtain ⟨-, -, hstore2, -, -, -⟩ :=
    indexTarget_ok emits (indexTarget emits st drive dir_path out).1 drive dir_path out hexit
  refine ⟨?_, ?_, ?_⟩
  · rw [hstore2, hstore, upsertBatch_idem]
  · rw [hstore]
    exact upsertBatch_pathsNodup _ hnd
  · intro s rec hs hmem
    exact ⟨upsert_length_of_mem s rec hs hmem, find?_upsert s rec⟩

/-- Witness for C3 at a one-line listing re-ingested twice, plus a concrete
replacement of an existing key. -/
theorem rerun_upsert_idempotent_witness :
    (indexTarget (fun _ => none)
        (indexTarget (fun _ => none) (initState 0) "r" ""
          { lines := ["a\tfile\t1\t2024"], exitCode := 0, errText := "" }).1 "r" ""
        { lines := ["a\tfile\t1\t2024"], exitCode := 0, errText := "" }).1.store
      = (indexTarget (fun _ => none) (initState 0) "r" ""
          { lines := ["a\tfile\t1\t2024"], exitCode := 0, errText := "" }).1.store ∧
    pathsNodup (indexTarget (fun _ => none) (initState 0) "r" ""
        { lines := ["a\tfile\t1\t2024"], exitCode := 0, errText := "" }).1.store ∧
    ((upsert [{ full_path := "r:a", drive := "r", size := 1, file_type := "file",
                modified := none }]
        { full_path := "r:a", drive := "r", size := 2, file_type := "file",
          modified := some "2025" }).length
      = [({ full_path := "r:a", drive := "r", size := 1, file_type := "file",
            modified := none } : CatalogRecord)].length ∧
    (upsert [{ full_path := "r:a", drive := "r", size := 1, file_type := "file",
               modified := none }]
        { full_path := "r:a", drive := "r", size := 2, file_type := "file",
          modified := some "2025" }).find?
        (fun x => x.full_path == "r:a")
      = some { full_path := "r:a", drive := "r", size := 2, file_type := "file",
               modified := some "2025" }) := by
  have h := rerun_upsert_idempotent (fun _ => none) (initState 0) "r" ""
    { lines := ["a\tfile\t1\t2024"], exitCode := 0, errText := "" } rfl (by decide)
  exact ⟨h.1, h.2.1,
    h.2.2 [{ full_path := "r:a", drive := "r", size := 1, file_type := "file",
             modified := none }]
      { full_path := "r:a", drive := "r", size := 2, file_type := "file",
        modified := some "2025" } (by decide) (by decide)⟩

/-- C4: a failing per-target item count is recovered — the run proceeds and
the progress total reflects only the successful target's count — whereas a
failing listing aborts the run at the failing target: the outcome is
independent of every target after it, and every record already flushed
before the failure stays committed. -/
theorem counting_recovered_listing_fatal (e : String) (n : Nat)
    (emits : Nat → Option (Except String Unit)) (st : IndexState)
    (listing : String × String → ListingResult) (t : String × String)
    (rest1 rest2 : List (String × String))
    (hfail : (listing t).exitCode ≠ 0) :
    countAllItems [Except.error e, Except.ok n] = n ∧
    (ingestTargets listing emits st (t :: rest1)).2.isSome ∧
    ingestTargets listing emits st (t :: rest1)
      = ingestTargets listing emits st (t :: rest2) ∧
    (∃ tail, (ingestTargets listing emits st (t :: rest1)).1.flushedLog
       = st.flushedLog ++ tail) := by
  have hIT := indexTarget_fail emits st t.1 t.2 (listing t) hfail
  have h2 : (indexTarget emits st t.1 t.2 (listing t)).2
      = some ("rclone lsf failed for " ++ targetOf t.1 t.2 ++ ": " ++ (listing t).errText) := by
    rw [hIT]
  have hA := ingestTargets_fail listing emits st t rest1 _ h2
  have hB := ingestTargets_fail listing emits st t rest2 _ h2
  obtain ⟨f, hf1, -, -⟩ :=
    indexLines_flush_inv t.1 (cleanDirOf t.2) emits (listing t).lines st []
  refine ⟨by simp [countAllItems], by rw [hA]; rfl, by rw [hA, hB], ⟨f, ?_⟩⟩
  rw [hA, hIT]
  exact hf1

/-- Witness for C4: a failed count recovered next to a successful one, and
a listing failure at the first target with different tails. -/
theorem counting_recovered_listing_fatal_witness :
    countAllItems [Except.error "boom", Except.ok 7] = 7 ∧
    (ingestTargets (fun _ => (⟨["a\tfile\t1\t2024"], 1, "err"⟩ : ListingResult))
        (fun _ => none) (initState 0) [("a", ""), ("b", "")]).2.isSome ∧
    ingestTargets (fun _ => (⟨["a\tfile\t1\t2024"], 1, "err"⟩ : ListingResult))
        (fun _ => none) (initState 0) [("a", ""), ("b", "")]
      = ingestTargets (fun _ => (⟨["a\tfile\t1\t2024"], 1, "err"⟩ : ListingResult))
          (fun _ => none) (initState 0) [("a", "")] ∧
    (∃ tail, (ingestTargets (fun _ => (⟨["a\tfile\t1\t2024"], 1, "err"⟩ : ListingResult))
        (fun _ => none) (initState 0)
        [("a", ""), ("b", "")]).1.flushedLog = (initState 0).flushedLog ++ tail) :=
  counting_recovered_listing_fatal "boom" 7 (fun _ => none) (initState 0)
    (fun _ => (⟨["a\tfile\t1\t2024"], 1, "err"⟩ : ListingResult))
    ("a", "") [("b", "")] [] (by decide)

/-- C5: path construction — for every remote name `r`, directory `/a/b/`
and relative path `c.txt` the stored full path is `r:a/b/c.txt` (leading
and trailing separators stripped, exactly one separator between directory
and relative path); for the empty directory the full path is `r:c.txt` and
the scoped target identifier is the bare `r:`. -/
theorem path_construction (r : String) :
    fullPathOf r (cleanDirOf "/a/b/") "c.txt" = r ++ ":a/b/c.txt" ∧
    fullPathOf r (cleanDirOf "") "c.txt" = r ++ ":c.txt" ∧
    targetOf r "" = r ++ ":" := by
  have h1 : cleanDirOf "/a/b/" = "a/b" := by decide
  have h2 : cleanDirOf "" = "" := by decide
  have h3 : rstripSlash "a/b" = "a/b" := by decide
  refine ⟨?_, ?_, ?_⟩
  · rw [h1]
    simp only [fullPathOf]
    rw [if_neg (by decide : ¬("a/b" = "")), h3,
        String.append_assoc, String.append_assoc]
    congr 1
  · rw [h2]
    simp only [fullPathOf, if_true]
    rw [String.append_assoc, String.append_assoc]
    congr 1
  · simp only [targetOf, h2, if_true]

/-- Progress bookkeeping of the target loop on any run, aborted or not: the
processed counter advances from its start by K records for some K, the
total is never modified by ingestion, and the reported values are exactly
the consecutive integers following the starting count. -/
theorem ingestTargets_progress_any (listing : String × String → ListingResult)
    (emits : Nat → Option (Except String Unit)) (ts : List (String × String)) :
    ∀ st : IndexState, ∃ K : Nat,
      (ingestTargets listing emits st ts).1.processed = st.processed + K ∧
      (ingestTargets listing emits st ts).1.total = st.total ∧
      (ingestTargets listing emits st ts).1.progressReports
        = st.progressReports ++ List.range' (st.processed + 1) K := by
  induction ts with
  | nil =>
    intro st
    exact ⟨0, by simp [ingestTargets], by simp [ingestTargets], by simp [ingestTargets]⟩
  | cons t rest ih =>
    intro st
    rcases hIT : indexTarget emits st t.1 t.2 (listing t) with ⟨st1, e⟩
    cases e with
    | none =>
      have hexit : (listing t).exitCode = 0 := by
        have := indexTarget_err_iff emits st t.1 t.2 (listing t)
        rw [hIT] at this
        exact this.mp rfl
      obtain ⟨-, -, -, hproc, htot, hrep⟩ := indexTarget_ok emits st t.1 t.2 (listing t) hexit
      rw [hIT] at hproc htot hrep
      have hstep : ingestTargets listing emits st (t :: rest)
          = ingestTargets listing emits st1 rest := by
        simp [ingestTargets, hIT]
      obtain ⟨K', g1, g2, g3⟩ := ih st1
      refine ⟨((listing t).lines.filterMap (parseLine t.1 (cleanDirOf t.2))).length + K',
        ?_, ?_, ?_⟩
      · rw [hstep, g1, hproc]
        omega
      · rw [hstep, g2, htot]
      · rw [hstep, g3, hrep, hproc, List.append_assoc]
        have harg : st.processed
            + ((listing t).lines.filterMap (parseLine t.1 (cleanDirOf t.2))).length + 1
            = st.processed + 1
              + ((listing t).lines.filterMap (parseLine t.1 (cleanDirOf t.2))).length := by
          omega
        rw [harg, List.range'_append_1, Nat.add_comm K']
    | some msg =>
      have h2 : (indexTarget emits st t.1 t.2 (listing t)).2 = some msg := by rw [hIT]
      have hstop := ingestTargets_fail listing emits st t rest msg h2
      have hexitne : (listing t).exitCode ≠ 0 := by
        intro h0
        have hnone := (indexTarget_err_iff emits st t.1 t.2 (listing t)).mpr h0
        rw [hIT] at hnone
        cases hnone
      have hfailEq := indexTarget_fail emits st t.1 t.2 (listing t) hexitne
      obtain ⟨p1, p2, p3⟩ :=
        indexLines_progress_inv t.1 (cleanDirOf t.2) emits (listing t).lines st []
      refine ⟨((listing t).lines.filterMap (parseLine t.1 (cleanDirOf t.2))).length,
        ?_, ?_, ?_⟩
      · rw [hstop, hfailEq]
        exact p1
      · rw [hstop, hfailEq]
        exact p2
      · rw [hstop, hfailEq]
        exact p3

/-- C6: across every run — including one aborted mid-way by a listing
failure — the reported processed counts are exactly 0, 1, …, M for some M
(the counter is set to 0 once before ingestion and each update only
increments it, hence monotonically non-decreasing), the total is set
exactly once from the pre-count before any target is ingested and never
modified afterwards, and when the run completes successfully the final
processed count equals the number of valid records ingested (skipped
malformed lines are not counted). -/
theorem progress_monotone_and_exact (drives dirs registry : List String)
    (counts : String × String → Except String Nat)
    (listing : String × String → ListingResult)
    (emits : Nat → Option (Except String Unit)) (targets : List (String × String))
    (hres : resolveTargets drives (directoriesOf dirs) registry = Except.ok targets)
    (hne : targets ≠ []) :
    List.Chain' (· ≤ ·)
      (fetchRun drives dirs registry counts listing emits).state.progressReports ∧
    (∃ M : Nat,
       (fetchRun drives dirs registry counts listing emits).state.progressReports
         = 0 :: List.range' 1 M ∧
       (fetchRun drives dirs registry counts listing emits).state.processed = M) ∧
    (fetchRun drives dirs registry counts listing emits).state.total
      = countAllItems (targets.map counts) ∧
    ((fetchRun drives dirs registry counts listing emits).err = none →
       (fetchRun drives dirs registry counts listing emits).state.processed
         = (allParsed listing targets).length) := by
  have hF := fetchRun_ok_unfold drives dirs registry counts listing emits targets hres hne
  rw [hF]
  simp only
  obtain ⟨K, k1, k2, k3⟩ := ingestTargets_progress_any listing emits targets
    (initState (countAllItems (targets.map counts)))
  have hrep0 : (ingestTargets listing emits
      (initState (countAllItems (targets.map counts))) targets).1.progressReports
      = 0 :: List.range' 1 K := by
    rw [k3]
    rfl
  have hprocK : (ingestTargets listing emits
      (initState (countAllItems (targets.map counts))) targets).1.processed = K := by
    rw [k1]
    simp [initState]
  refine ⟨?_, ⟨K, hrep0, hprocK⟩, ?_, ?_⟩
  · rw [hrep0]
    exact chainLe_zero_range' K
  · rw [k2]
    rfl
  · intro herr
    have h2 : (ingestTargets listing emits
        (initState (countAllItems (targets.map counts))) targets).2 = none := by
      cases hcase : (ingestTargets listing emits
          (initState (countAllItems (targets.map counts))) targets).2 with
      | none => rfl
      | some e => rw [hcase] at herr; cases herr
    obtain ⟨-, hproc, -, -⟩ := ingestTargets_ok listing emits targets
      (initState (countAllItems (targets.map counts))) h2
    rw [hproc]
    simp [initState]

/-- Witness for C6 at a one-remote, one-target, one-record run. -/
theorem progress_monotone_and_exact_witness :
    List.Chain' (· ≤ ·)
      (fetchRun ["a"] [] ["a"] (fun _ => Except.ok 2)
        (fun _ => (⟨["x\tfile\t1\t2024"], 0, ""⟩ : ListingResult))
        (fun _ => none)).state.progressReports ∧
    (∃ M : Nat,
       (fetchRun ["a"] [] ["a"] (fun _ => Except.ok 2)
          (fun _ => (⟨["x\tfile\t1\t2024"], 0, ""⟩ : ListingResult))
          (fun _ => none)).state.progressReports
         = 0 :: List.range' 1 M ∧
       (fetchRun ["a"] [] ["a"] (fun _ => Except.ok 2)
          (fun _ => (⟨["x\tfile\t1\t2024"], 0, ""⟩ : ListingResult))
          (fun _ => none)).state.processed = M) ∧
    (fetchRun ["a"] [] ["a"] (fun _ => Except.ok 2)
        (fun _ => (⟨["x\tfile\t1\t2024"], 0, ""⟩ : ListingResult))
        (fun _ => none)).state.total
      = countAllItems ([("a", "")].map (fun _ => Except.ok 2)) ∧
    ((fetchRun ["a"] [] ["a"] (fun _ => Except.ok 2)
        (fun _ => (⟨["x\tfile\t1\t2024"], 0, ""⟩ : ListingResult))
        (fun _ => none)).err = none →
       (fetchRun ["a"] [] ["a"] (fun _ => Except.ok 2)
          (fun _ => (⟨["x\tfile\t1\t2024"], 0, ""⟩ : ListingResult))
          (fun _ => none)).state.processed
         = (allParsed
             (fun _ => (⟨["x\tfile\t1\t2024"], 0, ""⟩ : ListingResult))
             [("a", "")]).length) :=
  progress_monotone_and_exact ["a"] [] ["a"] (fun _ => Except.ok 2)
    (fun _ => (⟨["x\tfile\t1\t2024"], 0, ""⟩ : ListingResult)) (fun _ => none)
    [("a", "")] rfl (by decide)


/-- C7: requesting remote names absent from the registry fails with exactly
the full list of missing names, before the catalog file or its directory is
created or opened. -/
theorem unknown_remote_rejected_before_db (drives dirs registry : List String)
    (counts : String × String → Except String Nat)
    (listing : String × String → ListingResult)
    (emits : Nat → Option (Except String Unit))
    (hmiss : drives.filter (fun d => decide (d ∉ registry)) ≠ []) :
    (fetchRun drives dirs registry counts listing emits).dbTouched = false ∧
    (fetchRun drives dirs registry counts listing emits).err
      = some (FetchError.unknownRemotes
          (drives.filter (fun d => decide (d ∉ registry)))) := by
  have hne : drives ≠ [] := by
    intro hc
    rw [hc] at hmiss
    exact hmiss rfl
  have hres := resolveTargets_error drives (directoriesOf dirs) registry hne hmiss
  unfold fetchRun
  rw [hres]
  exact ⟨rfl, rfl⟩

/-- Witness for C7: requesting remotes a and x against a registry holding
only a and b fails with exactly the missing list x, catalog untouched. -/
theorem unknown_remote_rejected_before_db_witness :
    (fetchRun ["a", "x"] [] ["a", "b"] (fun _ => Except.ok 0)
        (fun _ => (⟨[], 0, ""⟩ : ListingResult)) (fun _ => none)).dbTouched = false ∧
    (fetchRun ["a", "x"] [] ["a", "b"] (fun _ => Except.ok 0)
        (fun _ => (⟨[], 0, ""⟩ : ListingResult)) (fun _ => none)).err
      = some (FetchError.unknownRemotes ["x"]) := by
  have h := unknown_remote_rejected_before_db ["a", "x"] [] ["a", "b"]
    (fun _ => Except.ok 0) (fun _ => (⟨[], 0, ""⟩ : ListingResult)) (fun _ => none)
    (by decide)
  exact ⟨h.1, by rw [h.2]; decide⟩

/-- C8: the resolver's output is empty only when the registry is empty and
no remote was explicitly requested; the directory list always contains at
least the default root entry, so a non-empty registry with an empty or
fully-valid selection always yields targets. -/
theorem targets_empty_iff_registry_empty (drives dirs registry : List String)
    (ts : List (String × String))
    (hres : resolveTargets drives (directoriesOf dirs) registry = Except.ok ts) :
    directoriesOf dirs ≠ [] ∧ (ts = [] ↔ (drives = [] ∧ registry = [])) := by
  obtain ⟨hmiss, hts⟩ := resolveTargets_ok drives (directoriesOf dirs) registry ts hres
  refine ⟨directoriesOf_ne_nil dirs, ?_⟩
  by_cases hd : drives.isEmpty
  · have hdn : drives = [] := List.isEmpty_iff.mp hd
    rw [hts, if_pos hd]
    constructor
    · intro h
      refine ⟨hdn, ?_⟩
      cases hreg : registry with
      | nil => rfl
      | cons a rs =>
        rw [hreg, List.flatMap_cons] at h
        rcases List.append_eq_nil.mp h with ⟨hmap, -⟩
        exact absurd (List.map_eq_nil_iff.mp hmap) (directoriesOf_ne_nil dirs)
    · rintro ⟨-, h2⟩
      rw [h2]
      rfl
  · have hdn : drives ≠ [] := by
      intro hc
      rw [hc] at hd
      exact hd rfl
    rw [hts, if_neg hd]
    constructor
    · intro h
      cases hdr : drives with
      | nil => exact absurd hdr hdn
      | cons a rs =>
        rw [hdr, List.flatMap_cons] at h
        rcases List.append_eq_nil.mp h with ⟨hmap, -⟩
        exact absurd (List.map_eq_nil_iff.mp hmap) (directoriesOf_ne_nil dirs)
    · rintro ⟨h1, -⟩
      exact absurd h1 hdn

/-- Witness for C8 at the empty registry with no requested remotes. -/
theorem targets_empty_iff_registry_empty_witness :
    directoriesOf [] ≠ [] ∧
    (([] : List (String × String)) = [] ↔
      (([] : List String) = [] ∧ ([] : List String) = [])) :=
  targets_empty_iff_registry_empty [] [] [] [] rfl

/-- C9: every failure raised while emitting a progress update is caught and
discarded at the emission boundary, and ingestion is unaffected: its result
does not depend on the emission outcomes. -/
theorem emission_failure_never_propagates :
    (∀ emitter : Option (Except String Unit),
       emit_progress_safe emitter = Except.ok ()) ∧
    (∀ (d cd : String) (emits emits' : Nat → Option (Except String Unit))
       (st : IndexState) (b : List CatalogRecord) (ls : List String),
       indexLines d cd emits st b ls = indexLines d cd emits' st b ls) := by
  refine ⟨?_, ?_⟩
  · intro emitter
    rcases emitter with - | e
    · rfl
    · rcases e with e | u
      · rfl
      · rfl
  · intro d cd emits emits' st b ls
    exact indexLines_emits_irrel d cd ls emits emits' st b

/-- C10: when the listing subprocess exits non-zero, the failure is raised
before the final flush: the records parsed since the last full 500-record
flush are discarded, and the catalog keeps exactly the records of complete
batches (plus everything flushed earlier). -/
theorem listing_failure_drops_pending_batch (emits : Nat → Option (Except String Unit))
    (st : IndexState) (drive dir_path : String) (out : ListingResult)
    (hfail : out.exitCode ≠ 0) :
    (indexTarget emits st drive dir_path out).2
      = some ("rclone lsf failed for " ++ targetOf drive dir_path ++ ": " ++ out.errText) ∧
    (indexTarget emits st drive dir_path out).1.flushedLog
      = st.flushedLog
        ++ (out.lines.filterMap (parseLine drive (cleanDirOf dir_path))).take
             (batchLimit
               * ((out.lines.filterMap (parseLine drive (cleanDirOf dir_path))).length
                   / batchLimit)) := by
  have hIT := indexTarget_fail emits st drive dir_path out hfail
  obtain ⟨f, h1, -, h3⟩ :=
    indexLines_flush_inv drive (cleanDirOf dir_path) emits out.lines st []
  have hlen := indexLines_batch_len drive (cleanDirOf dir_path) emits out.lines st []
    (by simp [batchLimit])
  simp only [List.nil_append] at h3
  simp only [List.length_nil, Nat.zero_add] at hlen
  refine ⟨by rw [hIT], ?_⟩
  rw [hIT]
  simp only
  rw [h1]
  congr 1
  have hflen : f.length
      = batchLimit
        * ((out.lines.filterMap (parseLine drive (cleanDirOf dir_path))).length
            / batchLimit) := by
    have hlc := congrArg List.length h3
    rw [List.length_append, hlen] at hlc
    have hdm := Nat.div_add_mod
      (out.lines.filterMap (parseLine drive (cleanDirOf dir_path))).length batchLimit
    simp only [batchLimit] at hlc hdm ⊢
    omega
  rw [← hflen, ← h3, List.take_left]

/-- Witness for C10: a two-line stream with a non-zero exit flushes nothing
— both pending records are discarded. -/
theorem listing_failure_drops_pending_batch_witness :
    (indexTarget (fun _ => none) (initState 0) "r" ""
        (⟨["a\tfile\t1\t2024", "b\tfile\t2\t2024"], 1, "boom"⟩ : ListingResult)).2
      = some ("rclone lsf failed for " ++ targetOf "r" "" ++ ": "
          ++ (⟨["a\tfile\t1\t2024", "b\tfile\t2\t2024"], 1, "boom"⟩ : ListingResult).errText) ∧
    (indexTarget (fun _ => none) (initState 0) "r" ""
        (⟨["a\tfile\t1\t2024", "b\tfile\t2\t2024"], 1, "boom"⟩ : ListingResult)).1.flushedLog
      = (initState 0).flushedLog
        ++ (((⟨["a\tfile\t1\t2024", "b\tfile\t2\t2024"], 1, "boom"⟩ : ListingResult)).lines.filterMap
              (parseLine "r" (cleanDirOf ""))).take
             (batchLimit
               * ((((⟨["a\tfile\t1\t2024", "b\tfile\t2\t2024"], 1, "boom"⟩ : ListingResult)).lines.filterMap
                     (parseLine "r" (cleanDirOf ""))).length / batchLimit)) :=
  listing_failure_drops_pending_batch (fun _ => none) (initState 0) "r" ""
    (⟨["a\tfile\t1\t2024", "b\tfile\t2\t2024"], 1, "boom"⟩ : ListingResult) (by decide)
